import Mathlib

/-!
Verification development for the Algo-Trading repository.

Shallow embedding of the core algorithmic components:
* `src/models/option.py`     — Greeks-based option risk model and strike selector
* `src/strategies/bullish_swing.py` — six-point bullish swing structure engine
* `src/data/ohlcv.py`        — streaming tick-to-candle aggregator
* `src/brokers/angelone.py`  — Greeks-fetch retry/backoff loop

Prices and Greeks are embedded as rationals (`ℚ`); the Python floats carry
exact decimal constants (0.05, 0.995, 0.1, …) which are representable
exactly, and every claim is about exact arithmetic identities.
-/

set_option autoImplicit false

namespace AlgoTrading

/-! ### Settings (src/config/settings.py) -/

def MAX_SIGNAL_ATTEMPTS : ℕ := 1

def TARGET_RISK_MIN : ℚ := 800

def TARGET_RISK_MAX : ℚ := 900

def DEFAULT_LOT_SIZE : ℕ := 75

/-! ### Option model (src/models/option.py)

`OptionRow` is one row of the options table handed to `select_optimal_strike`
(the numeric fields `OptionData.__init__` reads).  `OptionData` is the object
state after `__init__`: `stop_loss`, `target` and `risk_per_lot` start as
`None`.  Fields the claims never touch (symbol, token, expiry, bid/ask,
volume, open interest, vega, implied volatility) are represented by the
opaque numeric tag `sym` standing for the identifying fields. -/

structure OptionRow where
  sym : ℕ
  delta : ℚ
  gamma : ℚ
  theta : ℚ
  last_price : ℚ
  deriving DecidableEq, Repr

structure OptionData where
  sym : ℕ
  delta : ℚ
  gamma : ℚ
  theta : ℚ
  last_price : ℚ
  stop_loss : Option ℚ
  target : Option ℚ
  risk_per_lot : Option ℚ
  deriving DecidableEq, Repr

/-- `OptionData.__init__`: numeric fields are copied, the derived fields
`stop_loss`, `target`, `risk_per_lot` start out as `None`. -/
def OptionData.ofRow (r : OptionRow) : OptionData :=
  { sym := r.sym
    delta := r.delta
    gamma := r.gamma
    theta := r.theta
    last_price := r.last_price
    stop_loss := none
    target := none
    risk_per_lot := none }

/-- The dictionary returned by `OptionData.calculate_stop_loss`. -/
structure StopCalc where
  price_change : ℚ
  total_sl : ℚ
  delta_impact : ℚ
  gamma_impact : ℚ
  theta_impact : ℚ
  deriving DecidableEq, Repr

/-- `OptionData.calculate_stop_loss(underlying_entry, underlying_sl)`.
The Python body is wrapped in `try/except` returning `None` on an exception;
over exact rational arithmetic none of its operations can raise, so the
embedded function always returns `some` (the `Option` result mirrors the
fallible signature).  It mutates the option (`risk_per_lot`, and when
`last_price > 0` also `stop_loss` and `target`), so the updated option is
returned alongside the result dictionary. -/
def OptionData.calculate_stop_loss (o : OptionData) (underlying_entry underlying_sl : ℚ) :
    Option (OptionData × StopCalc) :=
  let underlying_move := |underlying_entry - underlying_sl|
  let delta_impact := o.delta * underlying_move
  let gamma_impact := (1/2 : ℚ) * o.gamma * underlying_move ^ 2
  let theta_impact := (|o.theta| / (24 * 6)) * (10 / 60)
  let total_sl := delta_impact + gamma_impact + theta_impact
  let o1 := { o with risk_per_lot := some total_sl }
  let o2 :=
    if 0 < o.last_price then
      let sl := max (o.last_price - total_sl) (1/10)
      let risk := o.last_price - sl
      { o1 with stop_loss := some sl, target := some (o.last_price + 2 * risk) }
    else o1
  some (o2, { price_change := total_sl
              total_sl := total_sl
              delta_impact := delta_impact
              gamma_impact := gamma_impact
              theta_impact := theta_impact })

/-- A candidate recorded by the lot scan of `select_optimal_strike`:
the Python tuple `(option, quantity, total_risk, abs(total_risk - target_mid))`. -/
structure Cand where
  option : OptionData
  quantity : ℕ
  total_risk : ℚ
  dist : ℚ
  deriving DecidableEq, Repr

/-- Inner lot loop of `select_optimal_strike` for one option:
`for lots in range(1, 51)`, recording every in-band `(option, quantity,
total_risk)` and breaking as soon as `total_risk > target_max`.
`lots` is the current lot count, the second argument the remaining fuel. -/
def scanLotsAux (o : OptionData) (lot_size : ℕ) (target_min target_max target_mid : ℚ) :
    ℕ → ℕ → List Cand
  | _, 0 => []
  | lots, fuel + 1 =>
    let quantity := lots * lot_size
    let total_risk := o.risk_per_lot.getD 0 * (quantity : ℚ)
    let here :=
      if target_min ≤ total_risk ∧ total_risk ≤ target_max then
        [⟨o, quantity, total_risk, |total_risk - target_mid|⟩]
      else []
    if target_max < total_risk then here
    else here ++ scanLotsAux o lot_size target_min target_max target_mid (lots + 1) fuel

def scanLots (o : OptionData) (lot_size : ℕ) (target_min target_max target_mid : ℚ) :
    List Cand :=
  scanLotsAux o lot_size target_min target_max target_mid 1 50

/-- First minimum of `key` in a list: the element an ascending stable sort
(Python's `list.sort`) would place first.  A later element replaces the
current best only when its key is strictly smaller, so ties are broken in
favour of the earlier (encounter-order) element. -/
def minByFirst {α : Type} (key : α → ℚ) : List α → Option α
  | [] => none
  | x :: xs =>
    match minByFirst key xs with
    | none => some x
    | some b => if key b < key x then some b else some x

/-- `OptionData.select_optimal_strike(options_data, current_price,
target_risk_range=(target_min, target_max), lot_size)`.

The source builds an `OptionData` per row, keeps those whose
`calculate_stop_loss(current_price, current_price * 0.995)` returns a result
(the mutated objects carry `risk_per_lot`), scans lot multiples `1..50` per
option recording in-band candidates, then sorts candidates ascending by
`|total_risk - target_mid|` (a stable sort) and takes the first; with no
candidate it sorts the valid options by `|risk_per_lot*lot_size - target_mid|`
and returns the first at one `lot_size` of quantity.  Only the head of each
sorted list is consumed, which is exactly `minByFirst`. -/
def select_optimal_strike (options_data : List OptionRow) (current_price : ℚ)
    (target_min target_max : ℚ) (lot_size : ℕ) :
    Option OptionData × Option ℕ × Option ℚ :=
  if options_data = [] then (none, none, none)
  else
    let target_mid := (target_min + target_max) / 2
    let options := options_data.map OptionData.ofRow
    let valid_options := options.filterMap fun o =>
      (o.calculate_stop_loss current_price (current_price * (995/1000))).map Prod.fst
    if valid_options = [] then (none, none, none)
    else
      let options_in_range :=
        valid_options.flatMap fun o => scanLots o lot_size target_min target_max target_mid
      match minByFirst Cand.dist options_in_range with
      | some c => (some c.option, some c.quantity, some c.total_risk)
      | none =>
        match minByFirst (fun o => |o.risk_per_lot.getD 0 * (lot_size : ℚ) - target_mid|)
            valid_options with
        | some o => (some o, some lot_size, some (o.risk_per_lot.getD 0 * (lot_size : ℚ)))
        | none => (none, none, none)

/-! ### Swing structure engine (src/strategies/bullish_swing.py)

The strategy only reads the `low` and `high` columns of its candle data.
A structure point is stored in the source as a price field plus an index
field that are always set and cleared together; the embedding packs them
into one `Option (ℚ × ℕ)` (price, candle index). -/

structure Candle where
  low : ℚ
  high : ℚ
  deriving DecidableEq, Repr

instance : Inhabited Candle := ⟨⟨0, 0⟩⟩

def lowAt (data : List Candle) (i : ℕ) : ℚ := (data.getD i default).low

def highAt (data : List Candle) (i : ℕ) : ℚ := (data.getD i default).high

/-- The `pending_setup` dictionary: trade parameters plus the snapshot of the
six structure points taken at creation time. -/
structure PendingSetup where
  entry_price : ℚ
  stop_loss : ℚ
  target : ℚ
  snapH1 : Option (ℚ × ℕ)
  snapL1 : Option (ℚ × ℕ)
  snapA : Option (ℚ × ℕ)
  snapB : Option (ℚ × ℕ)
  snapC : Option (ℚ × ℕ)
  snapD : Option (ℚ × ℕ)
  deriving DecidableEq, Repr

/-- Mutable state of `BullishSwingStrategy` that the detection and signal
logic touches: the six structure points, the pending setup, and the order
and signal counters. -/
structure Engine where
  L1 : Option (ℚ × ℕ)
  H1 : Option (ℚ × ℕ)
  A : Option (ℚ × ℕ)
  B : Option (ℚ × ℕ)
  C : Option (ℚ × ℕ)
  D : Option (ℚ × ℕ)
  pending_setup : Option PendingSetup
  order_counter : ℕ
  signal_counter : ℕ
  deriving DecidableEq, Repr

def Engine.fresh : Engine :=
  { L1 := none, H1 := none, A := none, B := none, C := none, D := none,
    pending_setup := none, order_counter := 0, signal_counter := 0 }

/-- A row of the batch signal table where `signal = 1` was written
(`generate_signals` writes entry/stop/target at position `i`). -/
structure SignalRow where
  i : ℕ
  entry_price : ℚ
  stop_loss : ℚ
  target : ℚ
  deriving DecidableEq, Repr

inductive PointName
  | H1 | L1 | A | B | C | D
  deriving DecidableEq, Repr

/-- `reset_points(which_points)`: clears each named point; clearing `D` also
destroys the pending setup. -/
def reset_points (s : Engine) : List PointName → Engine
  | [] => s
  | PointName.H1 :: ps => reset_points { s with H1 := none } ps
  | PointName.L1 :: ps => reset_points { s with L1 := none } ps
  | PointName.A :: ps => reset_points { s with A := none } ps
  | PointName.B :: ps => reset_points { s with B := none } ps
  | PointName.C :: ps => reset_points { s with C := none } ps
  | PointName.D :: ps => reset_points { s with D := none, pending_setup := none } ps

/-- `is_swing_high(idx)`: strictly interior index whose high exceeds both
neighbours. -/
def is_swing_high (data : List Candle) (i : ℕ) : Bool :=
  if i = 0 ∨ data.length ≤ i + 1 then false
  else decide (highAt data (i - 1) < highAt data i)
    && decide (highAt data (i + 1) < highAt data i)

/-- `is_swing_low(idx)`: strictly interior index whose low is below both
neighbours. -/
def is_swing_low (data : List Candle) (i : ℕ) : Bool :=
  if i = 0 ∨ data.length ≤ i + 1 then false
  else decide (lowAt data i < lowAt data (i - 1))
    && decide (lowAt data i < lowAt data (i + 1))

/-- `initialize_H1_L1` (source name): seed L1 from the low of the first candle
and clear H1; on empty data only a warning is logged. -/
def init_H1_L1 (data : List Candle) (s : Engine) : Engine :=
  if data.length > 0 then
    { s with L1 := some (lowAt data 0, 0), H1 := none }
  else s

/-- The scan inside `calculate_point_D`: starting from the high at `B_idx`,
walk indices `B_idx+1 .. B_idx+fuel`, keeping the running maximum high and
the (first) index attaining it.  Mirrors
`for i in range(B_idx + 1, C_idx + 1)` with a strict `>` update. -/
def maxHighAux (data : List Candle) : ℕ → ℕ → ℚ × ℕ → ℚ × ℕ
  | _, 0, acc => acc
  | i, fuel + 1, acc =>
    let h := highAt data i
    maxHighAux data (i + 1) fuel (if acc.1 < h then (h, i) else acc)

/-- `calculate_point_D`: requires H1, B and C to be set; finds the highest
high over `[B_idx, C_idx]` (first index on ties), stores it as D, and derives
the pending setup `(entry = D + 0.05, stop = C − 0.05,
target = entry + 2·(entry − stop))` with a snapshot of the six points. -/
def calculate_point_D (data : List Candle) (s : Engine) : Engine :=
  match s.H1, s.B, s.C with
  | some _, some (_, bIdx), some (cV, cIdx) =>
    let best := maxHighAux data (bIdx + 1) (cIdx - bIdx) (highAt data bIdx, bIdx)
    let s1 := { s with D := some best }
    let entry_price := best.1 + (5/100 : ℚ)
    let stop_loss := cV - (5/100 : ℚ)
    let risk := entry_price - stop_loss
    let target := entry_price + risk * 2
    let p : PendingSetup :=
      { entry_price := entry_price
        stop_loss := stop_loss
        target := target
        snapH1 := s1.H1, snapL1 := s1.L1, snapA := s1.A
        snapB := s1.B, snapC := s1.C, snapD := s1.D }
    { s1 with pending_setup := some p }
  | _, _, _ => s

/-- Rule 1 of the `generate_signals` loop: L1 update on a new lower swing low;
resets H1, A, B, C, D (and with D the pending setup).  `L1` is always set
when this runs (the source would raise on a `None` comparison otherwise). -/
def stepL1 (data : List Candle) (i : ℕ) (s : Engine) : Engine :=
  match s.L1 with
  | some (l1, _) =>
    if is_swing_low data i ∧ lowAt data i < l1 then
      let s1 := { s with L1 := some (lowAt data i, i) }
      reset_points s1 [PointName.H1, PointName.A, PointName.B, PointName.C, PointName.D]
    else s
  | none => s

/-- Rule 2: H1 formation (first qualifying swing high above L1 after L1) or
H1 update (a higher swing high), the latter resetting A, B, C, D. -/
def stepH1 (data : List Candle) (i : ℕ) (s : Engine) : Engine :=
  match s.L1 with
  | some (l1, l1Idx) =>
    if is_swing_high data i then
      if l1Idx < i ∧ l1 < highAt data i then
        match s.H1 with
        | none => { s with H1 := some (highAt data i, i) }
        | some (h1, _) =>
          if h1 < highAt data i then
            let s1 := { s with H1 := some (highAt data i, i) }
            reset_points s1 [PointName.A, PointName.B, PointName.C, PointName.D]
          else s
      else s
    else s
  | none => s

/-- Rule 3: A formation — first swing low after H1 that stays above L1. -/
def stepA (data : List Candle) (i : ℕ) (s : Engine) : Engine :=
  match s.H1, s.L1 with
  | some (_, h1Idx), some (l1, _) =>
    if s.A = none ∧ is_swing_low data i then
      if h1Idx < i ∧ l1 < lowAt data i then
        { s with A := some (lowAt data i, i) }
      else s
    else s
  | _, _ => s

/-- Rule 4: B formation — a swing low strictly more than one candle after A
and above A. -/
def stepB (data : List Candle) (i : ℕ) (s : Engine) : Engine :=
  match s.A with
  | some (a, aIdx) =>
    if s.B = none ∧ is_swing_low data i then
      if aIdx + 1 < i ∧ a < lowAt data i then
        { s with B := some (lowAt data i, i) }
      else s
    else s
  | none => s

/-- Rule 5: C formation — after B, a pullback candle (`low[i] < low[i−1]`)
whose low stays above B; forming C immediately computes D. -/
def stepC (data : List Candle) (i : ℕ) (s : Engine) : Engine :=
  match s.B with
  | some (b, bIdx) =>
    if s.C = none then
      if bIdx < i ∧ lowAt data i < lowAt data (i - 1) ∧ b < lowAt data i then
        calculate_point_D data { s with C := some (lowAt data i, i) }
      else s
    else s
  | none => s

/-- Breakout block of the `generate_signals` loop: while a pending setup
exists, a candle high strictly above D writes a signal row, resets all six
points (destroying the setup) and re-seeds L1 from the triggering candle's
low.  `D` is always set when a pending setup exists (the source would raise
on a `None` comparison otherwise). -/
def breakoutStep (data : List Candle) (i : ℕ) :
    Engine × List SignalRow → Engine × List SignalRow
  | (s, rows) =>
    match s.pending_setup with
    | some p =>
      match s.D with
      | some (d, _) =>
        if d < highAt data i then
          let rows1 := rows ++ [⟨i, p.entry_price, p.stop_loss, p.target⟩]
          let s1 := reset_points s
            [PointName.H1, PointName.L1, PointName.A, PointName.B, PointName.C, PointName.D]
          ({ s1 with L1 := some (lowAt data i, i) }, rows1)
        else (s, rows)
      | none => (s, rows)
    | none => (s, rows)

/-- One iteration of the `generate_signals` loop at index `i`: the five point
rules in source order, then the breakout block. -/
def batchStep (data : List Candle) (i : ℕ) :
    Engine × List SignalRow → Engine × List SignalRow
  | (s, rows) =>
    let s1 := stepL1 data i s
    let s2 := stepH1 data i s1
    let s3 := stepA data i s2
    let s4 := stepB data i s3
    let s5 := stepC data i s4
    breakoutStep data i (s5, rows)

/-- `generate_signals`: seed L1 from the first candle, then run the loop over
indices `1 .. len(data) − 1`, producing the final engine state and the rows
of the signal table where a signal was written. -/
def generate_signals (data : List Candle) (s : Engine) : Engine × List SignalRow :=
  let e0 := init_H1_L1 data s
  (List.range' 1 (data.length - 1)).foldl (fun acc i => batchStep data i acc) (e0, [])

/-- The signal dictionary returned by `check_live_tick` (the wall-clock
timestamp is omitted). -/
structure Signal where
  entry_price : ℚ
  stop_loss : ℚ
  target : ℚ
  option : OptionData
  quantity : ℕ
  total_risk : ℚ
  deriving DecidableEq, Repr

/-- `check_live_tick(price)`.

Fires only when C and D are both set and `price > D` strictly; an order
counter at or above `max_attempts` (`settings.MAX_SIGNAL_ATTEMPTS`) aborts
first.  A missing pending setup is rebuilt from C and D.  `cached` stands for
`self.cached_options_data`; when it is absent or empty the source calls
`refresh_option_greeks(force_refresh=True)`, which in this repository never
produces usable rows (without a broker it leaves the cache unchanged, with
one it stores an empty placeholder frame), so the live check then returns
`None`.  Otherwise `select_optimal_strike` runs on the cached table; on
success the signal is returned and `signal_counter` incremented.  No
structure point is reset on any path. -/
def check_live_tick (max_attempts : ℕ) (target_min target_max : ℚ) (lot_size : ℕ)
    (s : Engine) (cached : Option (List OptionRow)) (price : ℚ) :
    Option Signal × Engine :=
  match s.C, s.D with
  | some (cV, _), some (d, _) =>
    if d < price then
      if max_attempts ≤ s.order_counter then (none, s)
      else
        let s1 :=
          match s.pending_setup with
          | some _ => s
          | none =>
            let entry_price := d + (5/100 : ℚ)
            let stop_loss := cV - (5/100 : ℚ)
            let risk_points := entry_price - stop_loss
            let p : PendingSetup :=
              { entry_price := entry_price
                stop_loss := stop_loss
                target := entry_price + 2 * risk_points
                snapH1 := s.H1, snapL1 := s.L1, snapA := s.A
                snapB := s.B, snapC := s.C, snapD := s.D }
            { s with pending_setup := some p }
        let options_data : Option (List OptionRow) :=
          match cached with
          | some tbl => if tbl = [] then none else some tbl
          | none => none
        match options_data with
        | none => (none, s1)
        | some tbl =>
          match s1.pending_setup with
          | some p =>
            match select_optimal_strike tbl price target_min target_max lot_size with
            | (some o, some q, some t) =>
              (some { entry_price := p.entry_price
                      stop_loss := p.stop_loss
                      target := p.target
                      option := o, quantity := q, total_risk := t },
               { s1 with signal_counter := s1.signal_counter + 1 })
            | _ => (none, s1)
          | none => (none, s1)
    else (none, s)
  | _, _ => (none, s)

/-! ### Streaming candle aggregator (src/data/ohlcv.py, `LiveOHLCVData`) -/

/-- A `datetime` value as far as `update_from_tick` observes it: day (a tag
for the full date), hour, minute, second, microsecond, compared
lexicographically like Python datetimes. -/
structure TickTime where
  day : ℕ
  hour : ℕ
  minute : ℕ
  second : ℕ
  micro : ℕ
  deriving DecidableEq, Repr

/-- Python datetime `<` restricted to the represented fields. -/
def TickTime.ltb (a b : TickTime) : Bool :=
  decide (a.day < b.day) ||
    (decide (a.day = b.day) &&
      (decide (a.hour < b.hour) ||
        (decide (a.hour = b.hour) &&
          (decide (a.minute < b.minute) ||
            (decide (a.minute = b.minute) &&
              (decide (a.second < b.second) ||
                (decide (a.second = b.second) && decide (a.micro < b.micro))))))))

/-- `tick_time.replace(minute=(tick_time.minute // W) * W, second=0,
microsecond=0)`: the bucket start for timeframe `W`. -/
def bucket_start (timeframe_minutes : ℕ) (t : TickTime) : TickTime :=
  { t with minute := t.minute / timeframe_minutes * timeframe_minutes,
           second := 0, micro := 0 }

/-- A candle held by `LiveOHLCVData` (dict with time/open/high/low/close/volume). -/
structure LiveCandle where
  time : TickTime
  open_p : ℚ
  high : ℚ
  low : ℚ
  close : ℚ
  volume : ℚ
  deriving DecidableEq, Repr

/-- A candle opened at a bucket boundary: open = high = low = close = the
tick's price, volume 0. -/
def freshCandle (t : TickTime) (price : ℚ) : LiveCandle :=
  ⟨t, price, price, price, price, 0⟩

/-- A websocket tick as `update_from_tick` reads it: timestamp and last
traded price; a volume field may be present but is never read by the update. -/
structure Tick where
  timestamp : TickTime
  ltp : ℚ
  volume : Option ℚ
  deriving DecidableEq, Repr

structure LiveOHLCVData where
  timeframe_minutes : ℕ
  current_candle : Option LiveCandle
  completed_candles : List LiveCandle
  deriving DecidableEq, Repr

/-- `update_from_tick(tick)`.  A tick whose bucket is strictly later than the
in-progress candle's bucket (or arriving with no in-progress candle) opens a
fresh candle, sealing the previous one; any other tick — same bucket or an
earlier bucket — is merged into the in-progress candle (`high`/`low`/`close`
updated, `volume` untouched).  The `try/except` around the body can only
trigger for `timeframe_minutes = 0` (a `ZeroDivisionError`); the embedding
is used with a positive timeframe. -/
def update_from_tick (d : LiveOHLCVData) (tick : Tick) : LiveOHLCVData :=
  let candle_start := bucket_start d.timeframe_minutes tick.timestamp
  let price := tick.ltp
  match d.current_candle with
  | none =>
    { d with current_candle := some ⟨candle_start, price, price, price, price, 0⟩ }
  | some c =>
    if TickTime.ltb c.time candle_start then
      { d with completed_candles := d.completed_candles ++ [c],
               current_candle := some ⟨candle_start, price, price, price, price, 0⟩ }
    else
      let c1 := { c with high := max c.high price, low := min c.low price, close := price }
      { d with current_candle := some c1 }

/-! ### Greeks-fetch retry loop (src/brokers/angelone.py, `get_option_greeks`)

The provider is modelled as one response per attempt index.  An error
response carries the outcome of the source's rate-limit phrase test on the
error message (`any(phrase in error_msg.lower() for phrase in ['rate limit',
'too many requests', 'exceeding access'])`): `transient = true` means the
message matched.  `exc` is an exception raised by the call (caught and
logged).  The jitter drawn by `random.uniform(0, 0.1)` at attempt `k` is
supplied as `jitter k`. -/

inductive GreekResp
  | ok (data : List ℚ)
  | err (transient : Bool)
  | exc
  deriving DecidableEq, Repr

/-- The `for retry in range(max_retries)` loop of `get_option_greeks`.
Arguments: current attempt index, remaining attempts, accumulated sleep
trace.  Returns the result, the sleep durations in order, and the number of
attempts made. -/
def greeksLoop (resp : ℕ → GreekResp) (jitter : ℕ → ℚ) :
    ℕ → ℕ → List ℚ → Option (List ℚ) × List ℚ × ℕ
  | retry, 0, trace => (none, trace, retry)
  | retry, fuel + 1, trace =>
    let trace1 :=
      if 0 < retry then trace ++ [min ((2 : ℚ) ^ retry + jitter retry) 5] else trace
    match resp retry with
    | GreekResp.ok data => (some data, trace1, retry + 1)
    | GreekResp.err transient =>
      let trace2 :=
        if transient then trace1 ++ [min (5 * ((retry : ℚ) + 1)) 30] else trace1
      greeksLoop resp jitter (retry + 1) fuel trace2
    | GreekResp.exc => greeksLoop resp jitter (retry + 1) fuel trace1

/-- `get_option_greeks(name, expiry_date, max_retries)`: a failed broker
connection returns `None` without attempting; otherwise the retry loop runs
from attempt 0 with the caller-supplied budget. -/
def get_option_greeks (connected : Bool) (resp : ℕ → GreekResp) (jitter : ℕ → ℚ)
    (max_retries : ℕ) : Option (List ℚ) × List ℚ × ℕ :=
  if connected then greeksLoop resp jitter 0 max_retries [] else (none, [], 0)

/-! ### Derived helpers used by the theorem statements -/

instance : Inhabited OptionData := ⟨OptionData.ofRow ⟨0, 0, 0, 0, 0⟩⟩

/-- The option object as it stands after `select_optimal_strike` ran
`calculate_stop_loss(current_price, current_price * 0.995)` on the fresh
`OptionData` built from a table row (the computation always succeeds, see
`calculate_stop_loss`). -/
def postCalcOption (current_price : ℚ) (r : OptionRow) : OptionData :=
  (((OptionData.ofRow r).calculate_stop_loss current_price
      (current_price * (995/1000))).map Prod.fst).getD default

/-- The `risk_per_lot` the selector sees for a table row. -/
def rowRisk (current_price : ℚ) (r : OptionRow) : ℚ :=
  (postCalcOption current_price r).risk_per_lot.getD 0

/-- A row/lot-count pair the selector's scan should record: the row is in the
table, the lot count is in `1..50`, and the total risk
`risk_per_lot · lots · lot_size` lies inside the target band. -/
def InBandPair (tbl : List OptionRow) (current_price target_min target_max : ℚ)
    (lot_size : ℕ) (r : OptionRow) (lots : ℕ) : Prop :=
  r ∈ tbl ∧ 1 ≤ lots ∧ lots ≤ 50 ∧
    target_min ≤ rowRisk current_price r * ((lots * lot_size : ℕ) : ℚ) ∧
    rowRisk current_price r * ((lots * lot_size : ℕ) : ℚ) ≤ target_max

/-! ## Supporting lemmas -/

theorem minByFirst_eq_none {α : Type} (key : α → ℚ) (l : List α) :
    minByFirst key l = none ↔ l = [] := by
  cases l with
  | nil => simp [minByFirst]
  | cons x xs =>
    simp only [minByFirst]
    cases h : minByFirst key xs with
    | none => simp
    | some b =>
      dsimp only
      by_cases hk : key b < key x <;> simp [hk]

theorem minByFirst_mem {α : Type} (key : α → ℚ) (l : List α) (a : α)
    (h : minByFirst key l = some a) : a ∈ l := by
  induction l generalizing a with
  | nil => simp [minByFirst] at h
  | cons x xs ih =>
    simp only [minByFirst] at h
    cases hx : minByFirst key xs with
    | none => rw [hx] at h; simp at h; simp [h]
    | some b =>
      rw [hx] at h
      by_cases hk : key b < key x
      · dsimp only at h
        rw [if_pos hk] at h
        have hb : b = a := by simpa using h
        subst hb
        exact List.mem_cons_of_mem _ (ih b hx)
      · dsimp only at h
        rw [if_neg hk] at h
        have hxa : x = a := by simpa using h
        simp [hxa]

theorem minByFirst_le {α : Type} (key : α → ℚ) (l : List α) (a : α)
    (h : minByFirst key l = some a) : ∀ b ∈ l, key a ≤ key b := by
  induction l generalizing a with
  | nil => simp [minByFirst] at h
  | cons x xs ih =>
    simp only [minByFirst] at h
    cases hx : minByFirst key xs with
    | none =>
      rw [hx] at h
      have hxa : x = a := by simpa using h
      subst hxa
      have hnil : xs = [] := (minByFirst_eq_none key xs).mp hx
      subst hnil
      intro b hb; simp at hb; subst hb; exact le_refl _
    | some b0 =>
      rw [hx] at h
      by_cases hk : key b0 < key x
      · dsimp only at h
        rw [if_pos hk] at h
        have hb : b0 = a := by simpa using h
        subst hb
        intro b hb
        rcases List.mem_cons.mp hb with rfl | hb'
        · exact le_of_lt hk
        · exact ih b0 hx b hb'
      · dsimp only at h
        rw [if_neg hk] at h
        have hxa : x = a := by simpa using h
        subst hxa
        intro b hb
        rcases List.mem_cons.mp hb with rfl | hb'
        · exact le_refl _
        · exact le_trans (not_lt.mp hk) (ih b0 hx b hb')

theorem minByFirst_first {α : Type} (key : α → ℚ) (l : List α) (a : α)
    (h : minByFirst key l = some a) :
    ∃ l1 l2, l = l1 ++ a :: l2 ∧ ∀ b ∈ l1, key a < key b := by
  induction l generalizing a with
  | nil => simp [minByFirst] at h
  | cons x xs ih =>
    simp only [minByFirst] at h
    cases hx : minByFirst key xs with
    | none =>
      rw [hx] at h
      have hxa : x = a := by simpa using h
      subst hxa
      exact ⟨[], xs, rfl, by simp⟩
    | some b0 =>
      rw [hx] at h
      by_cases hk : key b0 < key x
      · dsimp only at h
        rw [if_pos hk] at h
        have hb : b0 = a := by simpa using h
        subst hb
        obtain ⟨l1, l2, hsplit, hlt⟩ := ih b0 hx
        refine ⟨x :: l1, l2, by simp [hsplit], ?_⟩
        intro b hb
        rcases List.mem_cons.mp hb with rfl | hb'
        · exact hk
        · exact hlt b hb'
      · dsimp only at h
        rw [if_neg hk] at h
        have hxa : x = a := by simpa using h
        subst hxa
        exact ⟨[], xs, rfl, by simp⟩

theorem totalRisk_mono (r : ℚ) (ls : ℕ) (tmax : ℚ) (hmax : 0 ≤ tmax) (k n : ℕ)
    (hk : 1 ≤ k) (hkn : k ≤ n) (h : tmax < r * ((k * ls : ℕ) : ℚ)) :
    tmax < r * ((n * ls : ℕ) : ℚ) := by
  have hkq : ((k * ls : ℕ) : ℚ) = (k : ℚ) * (ls : ℚ) := by push_cast; ring
  have hnq : ((n * ls : ℕ) : ℚ) = (n : ℚ) * (ls : ℚ) := by push_cast; ring
  rw [hkq] at h
  rw [hnq]
  have hk1 : (1 : ℚ) ≤ (k : ℚ) := by exact_mod_cast hk
  have hknq : (k : ℚ) ≤ (n : ℚ) := by exact_mod_cast hkn
  have hc : 0 < r * (ls : ℚ) := by
    by_contra hc
    push_neg at hc
    have hnonpos : r * ((k : ℚ) * ls) ≤ 0 := by
      have : r * ((k : ℚ) * ls) = (r * ls) * k := by ring
      rw [this]
      exact mul_nonpos_of_nonpos_of_nonneg hc (by linarith)
    linarith
  have hstep : (r * ls) * k ≤ (r * ls) * n := by
    exact mul_le_mul_of_nonneg_left hknq (le_of_lt hc)
  calc tmax < r * ((k : ℚ) * ls) := h
    _ = (r * ls) * k := by ring
    _ ≤ (r * ls) * n := hstep
    _ = r * ((n : ℚ) * ls) := by ring

/-- With a nonnegative band maximum, the lot scan's early exit never skips an
in-band lot count: the recorded candidates are exactly the in-band lot counts
of the scanned range, in ascending order. -/
theorem scanLotsAux_eq (o : OptionData) (ls : ℕ) (tmin tmax mid : ℚ)
    (hmax : 0 ≤ tmax) :
    ∀ fuel lots, 1 ≤ lots →
      scanLotsAux o ls tmin tmax mid lots fuel =
        ((List.range' lots fuel).filter fun n =>
            decide (tmin ≤ o.risk_per_lot.getD 0 * ((n * ls : ℕ) : ℚ)) &&
              decide (o.risk_per_lot.getD 0 * ((n * ls : ℕ) : ℚ) ≤ tmax)).map
          fun n =>
            ⟨o, n * ls, o.risk_per_lot.getD 0 * ((n * ls : ℕ) : ℚ),
              |o.risk_per_lot.getD 0 * ((n * ls : ℕ) : ℚ) - mid|⟩ := by
  intro fuel
  induction fuel with
  | zero => intro lots _; simp [scanLotsAux]
  | succ fuel ih =>
    intro lots hlots
    rw [scanLotsAux]
    by_cases hbr : tmax < o.risk_per_lot.getD 0 * ((lots * ls : ℕ) : ℚ)
    · rw [if_pos hbr]
      have hnotband : ¬ (tmin ≤ o.risk_per_lot.getD 0 * ((lots * ls : ℕ) : ℚ) ∧
          o.risk_per_lot.getD 0 * ((lots * ls : ℕ) : ℚ) ≤ tmax) := by
        rintro ⟨-, hle⟩; linarith
      rw [if_neg hnotband]
      have htail : ((List.range' (lots + 1) fuel).filter fun n =>
          decide (tmin ≤ o.risk_per_lot.getD 0 * ((n * ls : ℕ) : ℚ)) &&
            decide (o.risk_per_lot.getD 0 * ((n * ls : ℕ) : ℚ) ≤ tmax)) = [] := by
        rw [List.filter_eq_nil_iff]
        intro n hn
        have hn' := List.mem_range'_1.mp hn
        have : tmax < o.risk_per_lot.getD 0 * ((n * ls : ℕ) : ℚ) :=
          totalRisk_mono _ ls tmax hmax lots n hlots (by omega) hbr
        simp only [Bool.and_eq_true, decide_eq_true_eq]
        rintro ⟨-, hle⟩; linarith
      rw [List.range'_succ, List.filter_cons]
      have hfalse : (decide (tmin ≤ o.risk_per_lot.getD 0 * ((lots * ls : ℕ) : ℚ)) &&
          decide (o.risk_per_lot.getD 0 * ((lots * ls : ℕ) : ℚ) ≤ tmax)) = false := by
        simp only [Bool.and_eq_false_iff, decide_eq_false_iff_not]
        right; linarith
      rw [hfalse, htail]
      simp
    · rw [if_neg hbr]
      rw [ih (lots + 1) (by omega)]
      rw [List.range'_succ, List.filter_cons]
      by_cases hband : tmin ≤ o.risk_per_lot.getD 0 * ((lots * ls : ℕ) : ℚ)
      · have htrue : (decide (tmin ≤ o.risk_per_lot.getD 0 * ((lots * ls : ℕ) : ℚ)) &&
            decide (o.risk_per_lot.getD 0 * ((lots * ls : ℕ) : ℚ) ≤ tmax)) = true := by
          simp only [Bool.and_eq_true, decide_eq_true_eq]
          exact ⟨hband, not_lt.mp hbr⟩
        rw [htrue, if_pos ⟨hband, not_lt.mp hbr⟩]
        simp
      · have hfalse : (decide (tmin ≤ o.risk_per_lot.getD 0 * ((lots * ls : ℕ) : ℚ)) &&
            decide (o.risk_per_lot.getD 0 * ((lots * ls : ℕ) : ℚ) ≤ tmax)) = false := by
          simp only [Bool.and_eq_false_iff, decide_eq_false_iff_not]
          left; exact hband
        rw [hfalse, if_neg (by rintro ⟨hc1, -⟩; exact hband hc1)]
        simp

theorem postCalcOption_spec (cp : ℚ) (r : OptionRow) :
    ((OptionData.ofRow r).calculate_stop_loss cp (cp * (995/1000))).map Prod.fst
      = some (postCalcOption cp r) := rfl

theorem valid_options_eq (cp : ℚ) (tbl : List OptionRow) :
    ((tbl.map OptionData.ofRow).filterMap fun o =>
        (o.calculate_stop_loss cp (cp * (995/1000))).map Prod.fst)
      = tbl.map (postCalcOption cp) := by
  induction tbl with
  | nil => rfl
  | cons r rs ih =>
    simp only [List.map_cons, List.filterMap_cons, postCalcOption_spec, ih]

theorem postCalcOption_risk (cp : ℚ) (r : OptionRow) :
    (postCalcOption cp r).risk_per_lot.getD 0 = rowRisk cp r := rfl

/-- `select_optimal_strike` on a nonempty table, with the always-successful
risk computation folded away. -/
theorem select_optimal_strike_eq (tbl : List OptionRow) (cp tmin tmax : ℚ)
    (ls : ℕ) (hne : tbl ≠ []) :
    select_optimal_strike tbl cp tmin tmax ls =
      match minByFirst Cand.dist ((tbl.map (postCalcOption cp)).flatMap
          fun o => scanLots o ls tmin tmax ((tmin + tmax) / 2)) with
      | some c => (some c.option, some c.quantity, some c.total_risk)
      | none =>
        match minByFirst
            (fun o => |o.risk_per_lot.getD 0 * (ls : ℚ) - (tmin + tmax) / 2|)
            (tbl.map (postCalcOption cp)) with
        | some o => (some o, some ls, some (o.risk_per_lot.getD 0 * (ls : ℚ)))
        | none => (none, none, none) := by
  unfold select_optimal_strike
  rw [if_neg hne]
  simp only [valid_options_eq]
  rw [if_neg (by simp [hne])]

/-- Membership in the selector's candidate list, for a nonnegative band
maximum: exactly the in-band (row, lot count) pairs. -/
theorem mem_candList (tbl : List OptionRow) (cp tmin tmax mid : ℚ) (ls : ℕ)
    (hmax : 0 ≤ tmax) (c : Cand) :
    c ∈ ((tbl.map (postCalcOption cp)).flatMap
        fun o => scanLots o ls tmin tmax mid) ↔
      ∃ r lots, r ∈ tbl ∧ 1 ≤ lots ∧ lots ≤ 50 ∧
        tmin ≤ rowRisk cp r * ((lots * ls : ℕ) : ℚ) ∧
        rowRisk cp r * ((lots * ls : ℕ) : ℚ) ≤ tmax ∧
        c = ⟨postCalcOption cp r, lots * ls, rowRisk cp r * ((lots * ls : ℕ) : ℚ),
          |rowRisk cp r * ((lots * ls : ℕ) : ℚ) - mid|⟩ := by
  rw [List.mem_flatMap]
  constructor
  · rintro ⟨o, ho, hc⟩
    obtain ⟨r, hr, rfl⟩ := List.mem_map.mp ho
    rw [scanLots, scanLotsAux_eq _ _ _ _ _ hmax 50 1 le_rfl] at hc
    obtain ⟨n, hn, rfl⟩ := List.mem_map.mp hc
    obtain ⟨hn1, hn2⟩ := List.mem_filter.mp hn
    have hn3 := List.mem_range'_1.mp hn1
    simp only [Bool.and_eq_true, decide_eq_true_eq] at hn2
    refine ⟨r, n, hr, by omega, by omega, ?_, ?_, ?_⟩
    · simpa [postCalcOption_risk] using hn2.1
    · simpa [postCalcOption_risk] using hn2.2
    · simp [postCalcOption_risk]
  · rintro ⟨r, lots, hr, h1, h50, hlo, hhi, rfl⟩
    refine ⟨postCalcOption cp r, List.mem_map.mpr ⟨r, hr, rfl⟩, ?_⟩
    rw [scanLots, scanLotsAux_eq _ _ _ _ _ hmax 50 1 le_rfl]
    refine List.mem_map.mpr ⟨lots, ?_, by simp [postCalcOption_risk]⟩
    refine List.mem_filter.mpr ⟨List.mem_range'_1.mpr ⟨h1, by omega⟩, ?_⟩
    simp only [Bool.and_eq_true, decide_eq_true_eq, postCalcOption_risk]
    exact ⟨hlo, hhi⟩

/-- Evaluation helper: a one-row table whose very first lot multiple already
exceeds the band maximum takes the fallback path and returns the contract at
one `lot_size` of quantity. -/
theorem select_singleton_break (r : OptionRow) (cp tmin tmax : ℚ) (ls : ℕ)
    (hmax : 0 ≤ tmax) (hbreak : tmax < rowRisk cp r * ((1 * ls : ℕ) : ℚ)) :
    select_optimal_strike [r] cp tmin tmax ls =
      (some (postCalcOption cp r), some ls, some (rowRisk cp r * (ls : ℚ))) := by
  rw [select_optimal_strike_eq _ _ _ _ _ (by simp)]
  have hcand : (([r].map (postCalcOption cp)).flatMap
      fun o' => scanLots o' ls tmin tmax ((tmin + tmax) / 2)) = [] := by
    simp only [List.map_cons, List.map_nil, List.flatMap_cons, List.flatMap_nil,
      List.append_nil]
    rw [scanLots, scanLotsAux_eq _ _ _ _ _ hmax 50 1 le_rfl]
    rw [List.map_eq_nil_iff, List.filter_eq_nil_iff]
    intro n hn
    have hn' := List.mem_range'_1.mp hn
    have hmono := totalRisk_mono (rowRisk cp r) ls tmax hmax 1 n le_rfl (by omega) hbreak
    simp only [Bool.and_eq_true, decide_eq_true_eq, postCalcOption_risk]
    rintro ⟨-, hle⟩
    linarith
  rw [hcand]
  simp [minByFirst, postCalcOption_risk]

/-! ## Claim theorems -/

/-- C4: For every non-empty options table, `select_optimal_strike` keeps the
contracts whose risk computation succeeds (over the embedding it always
does), scans lot multiples 1..50 with `total_risk = risk_per_lot·lots·lot_size`
stopping each contract's scan once the risk exceeds the band maximum (which,
for a nonnegative band maximum, skips no in-band candidate), returns among
all in-band candidates the one minimizing `|total_risk − midpoint|` with ties
broken by encounter order, falls back when no candidate is in band to the
single contract minimizing `|risk_per_lot·lot_size − midpoint|` at exactly
one `lot_size` of quantity, and returns `(none, none, none)` exactly when the
table is empty. -/
theorem C4_select_optimal_strike (tbl : List OptionRow) (cp tmin tmax : ℚ) (ls : ℕ)
    (hmax : 0 ≤ tmax) :
    (tbl = [] → select_optimal_strike tbl cp tmin tmax ls = (none, none, none)) ∧
    (tbl ≠ [] → ∃ o q t,
      select_optimal_strike tbl cp tmin tmax ls = (some o, some q, some t) ∧
      ((∃ r lots, InBandPair tbl cp tmin tmax ls r lots) →
        (∃ r lots, InBandPair tbl cp tmin tmax ls r lots ∧
          o = postCalcOption cp r ∧ q = lots * ls ∧
          t = rowRisk cp r * ((lots * ls : ℕ) : ℚ)) ∧
        tmin ≤ t ∧ t ≤ tmax ∧
        (∀ r lots, InBandPair tbl cp tmin tmax ls r lots →
          |t - (tmin + tmax) / 2| ≤
            |rowRisk cp r * ((lots * ls : ℕ) : ℚ) - (tmin + tmax) / 2|) ∧
        (∃ pre post,
          ((tbl.map (postCalcOption cp)).flatMap
              fun o' => scanLots o' ls tmin tmax ((tmin + tmax) / 2)) =
            pre ++ ⟨o, q, t, |t - (tmin + tmax) / 2|⟩ :: post ∧
          ∀ c ∈ pre, |t - (tmin + tmax) / 2| < c.dist)) ∧
      ((¬ ∃ r lots, InBandPair tbl cp tmin tmax ls r lots) →
        q = ls ∧
        (∃ r, r ∈ tbl ∧ o = postCalcOption cp r ∧ t = rowRisk cp r * (ls : ℚ)) ∧
        (∀ r, r ∈ tbl →
          |t - (tmin + tmax) / 2| ≤ |rowRisk cp r * (ls : ℚ) - (tmin + tmax) / 2|))) := by
  constructor
  · intro h; subst h; rfl
  · intro hne
    rw [select_optimal_strike_eq tbl cp tmin tmax ls hne]
    cases hmb : minByFirst Cand.dist ((tbl.map (postCalcOption cp)).flatMap
        fun o' => scanLots o' ls tmin tmax ((tmin + tmax) / 2)) with
    | some c =>
      have hcmem := minByFirst_mem _ _ _ hmb
      rw [mem_candList tbl cp tmin tmax ((tmin + tmax) / 2) ls hmax] at hcmem
      obtain ⟨r, lots, hr, h1, h50, hlo, hhi, hceq⟩ := hcmem
      subst hceq
      refine ⟨_, _, _, rfl, ?_, ?_⟩
      · intro _
        refine ⟨⟨r, lots, ⟨hr, h1, h50, hlo, hhi⟩, rfl, rfl, rfl⟩, hlo, hhi, ?_, ?_⟩
        · intro r' lots' hpair
          have hmem' : (⟨postCalcOption cp r', lots' * ls,
              rowRisk cp r' * ((lots' * ls : ℕ) : ℚ),
              |rowRisk cp r' * ((lots' * ls : ℕ) : ℚ) - (tmin + tmax) / 2|⟩ : Cand) ∈
              ((tbl.map (postCalcOption cp)).flatMap
                fun o' => scanLots o' ls tmin tmax ((tmin + tmax) / 2)) := by
            rw [mem_candList tbl cp tmin tmax ((tmin + tmax) / 2) ls hmax]
            exact ⟨r', lots', hpair.1, hpair.2.1, hpair.2.2.1, hpair.2.2.2.1,
              hpair.2.2.2.2, rfl⟩
          exact minByFirst_le _ _ _ hmb _ hmem'
        · exact minByFirst_first _ _ _ hmb
      · intro hnopair
        exact absurd ⟨r, lots, hr, h1, h50, hlo, hhi⟩ hnopair
    | none =>
      have hempty := (minByFirst_eq_none _ _).mp hmb
      have hnopair : ¬ ∃ r lots, InBandPair tbl cp tmin tmax ls r lots := by
        rintro ⟨r, lots, hr, h1, h50, hlo, hhi⟩
        have hmem : (⟨postCalcOption cp r, lots * ls,
            rowRisk cp r * ((lots * ls : ℕ) : ℚ),
            |rowRisk cp r * ((lots * ls : ℕ) : ℚ) - (tmin + tmax) / 2|⟩ : Cand) ∈
            ((tbl.map (postCalcOption cp)).flatMap
              fun o' => scanLots o' ls tmin tmax ((tmin + tmax) / 2)) := by
          rw [mem_candList tbl cp tmin tmax ((tmin + tmax) / 2) ls hmax]
          exact ⟨r, lots, hr, h1, h50, hlo, hhi, rfl⟩
        rw [hempty] at hmem
        simp at hmem
      cases hfb : minByFirst
          (fun o' => |o'.risk_per_lot.getD 0 * (ls : ℚ) - (tmin + tmax) / 2|)
          (tbl.map (postCalcOption cp)) with
      | none =>
        exfalso
        have := (minByFirst_eq_none _ _).mp hfb
        rw [List.map_eq_nil_iff] at this
        exact hne this
      | some o =>
        have homem := minByFirst_mem _ _ _ hfb
        obtain ⟨r, hr, rfl⟩ := List.mem_map.mp homem
        refine ⟨_, _, _, rfl, ?_, ?_⟩
        · intro hpair; exact absurd hpair hnopair
        · intro _
          refine ⟨rfl, ⟨r, hr, rfl, rfl⟩, ?_⟩
          intro r' hr'
          have hle := minByFirst_le _ _ _ hfb (postCalcOption cp r')
            (List.mem_map.mpr ⟨r', hr', rfl⟩)
          simpa [postCalcOption_risk] using hle

theorem C4_select_optimal_strike_witness :
    (0 : ℚ) ≤ 900 ∧
    select_optimal_strike [⟨0, 1, 0, 0, 50⟩] 111 800 900 75 ≠ (none, none, none) := by
  refine ⟨by norm_num, ?_⟩
  obtain ⟨-, h⟩ := C4_select_optimal_strike [⟨0, 1, 0, 0, 50⟩] 111 800 900 75 (by norm_num)
  obtain ⟨o, q, t, heq, -, -⟩ := h (by simp)
  rw [heq]
  simp

/-- C5: `calculate_stop_loss` computes `move = |entry − stop|`,
`delta_impact = delta·move`, `gamma_impact = ½·gamma·move²`,
`theta_impact = (|theta|/144)·(10/60)`, `total` their sum; when
`last_price > 0` it sets `stop_loss = max(last_price − total, 0.1)` and
`target = last_price + 2·(last_price − stop_loss)`; and it always returns a
result over exact arithmetic — negative or zero Greeks flow through. -/
theorem C5_calculate_stop_loss (o : OptionData) (underlying_entry underlying_sl : ℚ) :
    ∃ upd res,
      o.calculate_stop_loss underlying_entry underlying_sl = some (upd, res) ∧
      res.delta_impact = o.delta * |underlying_entry - underlying_sl| ∧
      res.gamma_impact = (1/2) * o.gamma * |underlying_entry - underlying_sl| ^ 2 ∧
      res.theta_impact = (|o.theta| / 144) * (10/60) ∧
      res.total_sl = res.delta_impact + res.gamma_impact + res.theta_impact ∧
      upd.risk_per_lot = some res.total_sl ∧
      (0 < o.last_price →
        upd.stop_loss = some (max (o.last_price - res.total_sl) (1/10)) ∧
        upd.target = some (o.last_price +
          2 * (o.last_price - max (o.last_price - res.total_sl) (1/10)))) := by
  simp only [OptionData.calculate_stop_loss]
  by_cases hp : 0 < o.last_price
  · rw [if_pos hp]
    exact ⟨_, _, rfl, rfl, rfl, by norm_num, rfl, rfl, fun _ => ⟨rfl, rfl⟩⟩
  · rw [if_neg hp]
    exact ⟨_, _, rfl, rfl, rfl, by norm_num, rfl, rfl, fun hc => absurd hc hp⟩

theorem C5_calculate_stop_loss_witness :
    OptionData.calculate_stop_loss ⟨0, 1, 2, -3, 50, none, none, none⟩ 100 99 =
      some (⟨0, 1, 2, -3, 50, some (13823/288), some (7777/144), some (577/288)⟩,
        ⟨577/288, 577/288, 1, 1, 1/288⟩) ∧
    ∃ upd res,
      OptionData.calculate_stop_loss ⟨0, 1, 2, -3, 50, none, none, none⟩ 100 99 =
        some (upd, res) ∧
      upd.stop_loss = some (max (50 - res.total_sl) (1/10)) := by
  constructor
  · simp only [OptionData.calculate_stop_loss]
    norm_num [max_def]
  · obtain ⟨upd, res, heq, -, -, -, -, -, himp⟩ :=
      C5_calculate_stop_loss ⟨0, 1, 2, -3, 50, none, none, none⟩ 100 99
    obtain ⟨hsl, -⟩ := himp (by norm_num)
    exact ⟨upd, res, heq, hsl⟩

/-- C10: an option with `last_price ≤ 0` still gets a result from
`calculate_stop_loss` — `risk_per_lot` is set to the computed total while
`stop_loss` and `target` stay `None` — and `select_optimal_strike` can return
such a contract as the selected option with `stop_loss` and `target` unset
(shown on a concrete one-row table with `last_price = 0`). -/
theorem C10_zero_price_option (o : OptionData) (underlying_entry underlying_sl : ℚ)
    (hlp : o.last_price ≤ 0) (hsl : o.stop_loss = none) (htg : o.target = none) :
    (∃ upd res,
      o.calculate_stop_loss underlying_entry underlying_sl = some (upd, res) ∧
      upd.risk_per_lot = some res.total_sl ∧
      upd.stop_loss = none ∧ upd.target = none) ∧
    select_optimal_strike [⟨7, 100, 0, 0, 0⟩] 100 800 900 75 =
      (some ⟨7, 100, 0, 0, 0, none, none, some 50⟩, some 75, some 3750) := by
  constructor
  · simp only [OptionData.calculate_stop_loss]
    rw [if_neg (not_lt.mpr hlp)]
    exact ⟨_, _, rfl, rfl, hsl, htg⟩
  · have hrisk : rowRisk 100 ⟨7, 100, 0, 0, 0⟩ = 50 := by
      simp only [rowRisk, postCalcOption, OptionData.calculate_stop_loss, OptionData.ofRow]
      rw [show |(100 : ℚ) - 100 * (995/1000)| = 1/2 by rw [abs_of_nonneg] <;> norm_num]
      norm_num
    have hpost : postCalcOption 100 ⟨7, 100, 0, 0, 0⟩ =
        ⟨7, 100, 0, 0, 0, none, none, some 50⟩ := by
      simp only [postCalcOption, OptionData.calculate_stop_loss, OptionData.ofRow]
      rw [show |(100 : ℚ) - 100 * (995/1000)| = 1/2 by rw [abs_of_nonneg] <;> norm_num]
      norm_num
    rw [select_singleton_break _ _ _ _ _ (by norm_num) (by rw [hrisk]; norm_num),
      hrisk, hpost]
    norm_num

theorem C10_zero_price_option_witness :
    (0 : ℚ) ≤ 0 ∧
    ∃ upd res,
      OptionData.calculate_stop_loss ⟨7, 0, 0, 0, 0, none, none, none⟩ 100 99 =
        some (upd, res) ∧
      upd.stop_loss = none ∧ upd.target = none := by
  obtain ⟨⟨upd, res, heq, -, hstop, htarget⟩, -⟩ :=
    C10_zero_price_option ⟨7, 0, 0, 0, 0, none, none, none⟩ 100 99 (by norm_num) rfl rfl
  exact ⟨le_refl 0, upd, res, heq, hstop, htarget⟩

theorem maxHighAux_spec (data : List Candle) :
    ∀ fuel i acc,
      (maxHighAux data i fuel acc = acc ∨
        ∃ j, i ≤ j ∧ j < i + fuel ∧ maxHighAux data i fuel acc = (highAt data j, j)) ∧
      acc.1 ≤ (maxHighAux data i fuel acc).1 ∧
      (∀ j, i ≤ j → j < i + fuel → highAt data j ≤ (maxHighAux data i fuel acc).1) := by
  intro fuel
  induction fuel with
  | zero =>
    intro i acc
    exact ⟨Or.inl rfl, le_refl _, fun j h1 h2 => absurd h2 (by omega)⟩
  | succ fuel ih =>
    intro i acc
    simp only [maxHighAux]
    obtain ⟨hstruct, hle, hbound⟩ :=
      ih (i + 1) (if acc.1 < highAt data i then (highAt data i, i) else acc)
    refine ⟨?_, ?_, ?_⟩
    · rcases hstruct with heq | ⟨j, hj1, hj2, heq⟩
      · by_cases hlt : acc.1 < highAt data i
        · right
          refine ⟨i, le_refl i, by omega, ?_⟩
          rw [heq, if_pos hlt]
        · left
          rw [heq, if_neg hlt]
      · right
        exact ⟨j, by omega, by omega, heq⟩
    · refine le_trans ?_ hle
      split
      · exact le_of_lt (by assumption)
      · exact le_refl _
    · intro j hj1 hj2
      by_cases hji : j = i
      · subst hji
        refine le_trans ?_ hle
        split
        · exact le_refl _
        · exact not_lt.mp (by assumption)
      · exact hbound j (by omega) (by omega)

/-- C2: whenever C forms with H1 and B already set, `calculate_point_D` sets
D to the maximum high over the inclusive range `[B_idx, C_idx]` together with
an index in that range attaining it, and the derived setup satisfies
`entry_price = D + 0.05`, `stop_loss = C − 0.05` and
`target = entry_price + 2·(entry_price − stop_loss)` exactly. -/
theorem C2_calculate_point_D (data : List Candle) (s : Engine)
    (h1v : ℚ × ℕ) (b c : ℚ) (bIdx cIdx : ℕ)
    (hH1 : s.H1 = some h1v) (hB : s.B = some (b, bIdx)) (hC : s.C = some (c, cIdx))
    (hbc : bIdx ≤ cIdx) :
    ∃ d dIdx,
      (calculate_point_D data s).D = some (d, dIdx) ∧
      bIdx ≤ dIdx ∧ dIdx ≤ cIdx ∧ highAt data dIdx = d ∧
      (∀ j, bIdx ≤ j → j ≤ cIdx → highAt data j ≤ d) ∧
      ∃ p, (calculate_point_D data s).pending_setup = some p ∧
        p.entry_price = d + 5/100 ∧ p.stop_loss = c - 5/100 ∧
        p.target = p.entry_price + 2 * (p.entry_price - p.stop_loss) := by
  obtain ⟨hstruct, hle, hbound⟩ :=
    maxHighAux_spec data (cIdx - bIdx) (bIdx + 1) (highAt data bIdx, bIdx)
  simp only [calculate_point_D, hH1, hB, hC]
  refine ⟨(maxHighAux data (bIdx + 1) (cIdx - bIdx) (highAt data bIdx, bIdx)).1,
    (maxHighAux data (bIdx + 1) (cIdx - bIdx) (highAt data bIdx, bIdx)).2,
    rfl, ?_, ?_, ?_, ?_, ?_⟩
  · rcases hstruct with heq | ⟨j, hj1, hj2, heq⟩
    · rw [heq]
    · rw [heq]; omega
  · rcases hstruct with heq | ⟨j, hj1, hj2, heq⟩
    · rw [heq]; exact hbc
    · rw [heq]; simp; omega
  · rcases hstruct with heq | ⟨j, hj1, hj2, heq⟩
    · rw [heq]
    · rw [heq]
  · intro j hj1 hj2
    by_cases hjb : j = bIdx
    · subst hjb; exact hle
    · exact hbound j (by omega) (by omega)
  · refine ⟨_, rfl, rfl, rfl, by ring⟩

theorem C2_calculate_point_D_witness :
    ∃ d dIdx,
      (calculate_point_D [⟨100, 101⟩, ⟨95, 96⟩, ⟨106, 110⟩, ⟨105, 112⟩, ⟨102, 103⟩]
        { Engine.fresh with H1 := some (110, 2), B := some (102, 3), C := some (103, 4) }).D
        = some (d, dIdx) ∧
      3 ≤ dIdx ∧ dIdx ≤ 4 ∧
      highAt [⟨100, 101⟩, ⟨95, 96⟩, ⟨106, 110⟩, ⟨105, 112⟩, ⟨102, 103⟩] dIdx = d := by
  obtain ⟨d, dIdx, hD, hge, hle2, hhigh, -, -⟩ :=
    C2_calculate_point_D [⟨100, 101⟩, ⟨95, 96⟩, ⟨106, 110⟩, ⟨105, 112⟩, ⟨102, 103⟩]
      { Engine.fresh with H1 := some (110, 2), B := some (102, 3), C := some (103, 4) }
      (110, 2) 102 103 3 4 rfl rfl rfl (by omega)
  exact ⟨d, dIdx, hD, hge, hle2, hhigh⟩

/-- C9: two runs of the batch detector over the same candle data from the
same fresh engine produce identical structure points and identical signal
rows — `generate_signals` is deterministic in its candle input. -/
theorem C9_generate_signals_deterministic (data : List Candle)
    (e1 e2 : Engine) (r1 r2 : List SignalRow)
    (h1 : generate_signals data Engine.fresh = (e1, r1))
    (h2 : generate_signals data Engine.fresh = (e2, r2)) :
    e1 = e2 ∧ r1 = r2 := by
  rw [h1] at h2
  exact ⟨congrArg Prod.fst h2, congrArg Prod.snd h2⟩

theorem C9_generate_signals_deterministic_witness :
    (generate_signals [⟨1, 2⟩, ⟨3, 4⟩] Engine.fresh).1 =
      (generate_signals [⟨1, 2⟩, ⟨3, 4⟩] Engine.fresh).1 ∧
    (generate_signals [⟨1, 2⟩, ⟨3, 4⟩] Engine.fresh).2 =
      (generate_signals [⟨1, 2⟩, ⟨3, 4⟩] Engine.fresh).2 :=
  C9_generate_signals_deterministic [⟨1, 2⟩, ⟨3, 4⟩] _ _ _ _ rfl rfl

/-- C8: counterexample.  On a candle sequence realizing the scenario's listed
anchor values (lows 100, 95, 106, 105, 102, 108; a swing low of 95 at index 1
and a swing high of 110 at index 2), the detector seeds L1 = 95@1 and
H1 = 110@2 as claimed, but then forms A = 102 at index 4 and leaves B, C and
D unset — not the claimed A = 105@3, B = 102@4, C = 108@5 with D over
high[4..5]. -/
theorem C8_counterexample :
    is_swing_low [⟨100, 101⟩, ⟨95, 96⟩, ⟨106, 110⟩, ⟨105, 106⟩, ⟨102, 103⟩, ⟨108, 109⟩]
      1 = true ∧
    is_swing_high [⟨100, 101⟩, ⟨95, 96⟩, ⟨106, 110⟩, ⟨105, 106⟩, ⟨102, 103⟩, ⟨108, 109⟩]
      2 = true ∧
    generate_signals [⟨100, 101⟩, ⟨95, 96⟩, ⟨106, 110⟩, ⟨105, 106⟩, ⟨102, 103⟩, ⟨108, 109⟩]
      Engine.fresh =
      ({ L1 := some (95, 1), H1 := some (110, 2), A := some (102, 4), B := none,
         C := none, D := none, pending_setup := none, order_counter := 0,
         signal_counter := 0 }, []) := by
  refine ⟨by decide, by decide, by decide⟩

/-- C8 (amended): the spec's example cannot play out on the code's rules —
with low[3] = 105 and low[4] = 102 index 3 is no swing low, a B at index 4
is blocked by the spacing rule `i > A_idx + 1` when A sits at index 3, and a
C at index 5 is blocked since low[5] = 108 is not below low[4] = 102; on a
sequence realizing the listed values the run seeds L1 = 95@1 and H1 = 110@2
and then forms A = 102@4, leaving B, C, D unset. -/
theorem C8_amended_scenario :
    (∀ data : List Candle, lowAt data 3 = 105 → lowAt data 4 = 102 →
      is_swing_low data 3 = false) ∧
    (∀ (data : List Candle) (s : Engine) (a : ℚ), s.A = some (a, 3) →
      stepB data 4 s = s) ∧
    (∀ (data : List Candle) (s : Engine) (b : ℚ), lowAt data 4 = 102 →
      lowAt data 5 = 108 → s.B = some (b, 4) → stepC data 5 s = s) ∧
    generate_signals [⟨100, 101⟩, ⟨95, 96⟩, ⟨106, 110⟩, ⟨105, 106⟩, ⟨102, 103⟩, ⟨108, 109⟩]
      Engine.fresh =
      ({ L1 := some (95, 1), H1 := some (110, 2), A := some (102, 4), B := none,
         C := none, D := none, pending_setup := none, order_counter := 0,
         signal_counter := 0 }, []) := by
  refine ⟨?_, ?_, ?_, by decide⟩
  · intro data h3 h4
    simp only [is_swing_low, h3, h4]
    split
    · rfl
    · simp only [Nat.add_one_sub_one]
      rw [show (decide ((105 : ℚ) < 102)) = false by norm_num]
      simp
  · intro data s a hA
    simp only [stepB, hA]
    split
    · rw [if_neg]
      rintro ⟨h4, -⟩
      omega
    · rfl
  · intro data s b h4 h5 hB
    simp only [stepC, hB]
    split
    · rw [if_neg]
      rintro ⟨-, hlt, -⟩
      rw [h4, h5] at hlt
      norm_num at hlt
    · rfl

theorem C8_amended_scenario_witness :
    is_swing_low [⟨0, 0⟩, ⟨0, 0⟩, ⟨0, 0⟩, ⟨105, 0⟩, ⟨102, 0⟩, ⟨108, 0⟩] 3 = false := by
  obtain ⟨h1, -, -, -⟩ := C8_amended_scenario
  exact h1 [⟨0, 0⟩, ⟨0, 0⟩, ⟨0, 0⟩, ⟨105, 0⟩, ⟨102, 0⟩, ⟨108, 0⟩] rfl rfl

/-- C6: counterexample.  A tick whose bucket is EARLIER than the in-progress
candle's bucket is not a silent no-op: it is merged into the in-progress
candle exactly like a same-bucket tick (the high is updated to 105 here);
and a same-bucket tick carrying an explicit volume field does not accumulate
volume (it stays 7). -/
theorem C6_counterexample :
    (update_from_tick
      { timeframe_minutes := 5,
        current_candle := some ⟨⟨0, 10, 5, 0, 0⟩, 99, 100, 99, 100, 7⟩,
        completed_candles := [] }
      { timestamp := ⟨0, 10, 3, 30, 0⟩, ltp := 105, volume := some 11 }).current_candle =
      some ⟨⟨0, 10, 5, 0, 0⟩, 99, 105, 99, 105, 7⟩ ∧
    (update_from_tick
      { timeframe_minutes := 5,
        current_candle := some ⟨⟨0, 10, 5, 0, 0⟩, 99, 100, 99, 100, 7⟩,
        completed_candles := [] }
      { timestamp := ⟨0, 10, 6, 0, 0⟩, ltp := 100, volume := some 11 }).current_candle =
      some ⟨⟨0, 10, 5, 0, 0⟩, 99, 100, 99, 100, 7⟩ := by
  refine ⟨by decide, by decide⟩

/-- C6 (amended): a tick in a strictly later bucket seals the in-progress
candle and opens a fresh one with open = high = low = close = price and
volume 0 (likewise a first tick opens a fresh candle); EVERY other tick —
same bucket or an earlier bucket alike — is merged into the in-progress
candle with `high = max(high, price)`, `low = min(low, price)`,
`close = price`, and the tick's volume field is never read (candle volume is
unchanged). -/
theorem C6_update_from_tick (d : LiveOHLCVData) (tick : Tick)
    (htf : 0 < d.timeframe_minutes) :
    (d.current_candle = none →
      update_from_tick d tick = { d with current_candle := some (freshCandle (bucket_start d.timeframe_minutes tick.timestamp) tick.ltp) }) ∧
    (∀ c, d.current_candle = some c →
      (TickTime.ltb c.time (bucket_start d.timeframe_minutes tick.timestamp) = true →
        update_from_tick d tick =
          { d with completed_candles := d.completed_candles ++ [c], current_candle := some (freshCandle (bucket_start d.timeframe_minutes tick.timestamp) tick.ltp) }) ∧
      (TickTime.ltb c.time (bucket_start d.timeframe_minutes tick.timestamp) = false →
        update_from_tick d tick = { d with current_candle := some { c with high := max c.high tick.ltp, low := min c.low tick.ltp, close := tick.ltp } })) := by
  refine ⟨?_, ?_⟩
  · intro h
    simp [update_from_tick, h, freshCandle]
  · intro c hc
    constructor
    · intro hlt
      simp [update_from_tick, hc, hlt, freshCandle]
    · intro hlt
      simp [update_from_tick, hc, hlt, freshCandle]

theorem C6_update_from_tick_witness :
    0 < 5 ∧
    update_from_tick
      { timeframe_minutes := 5, current_candle := none, completed_candles := [] }
      { timestamp := ⟨0, 10, 3, 0, 0⟩, ltp := 42, volume := none } =
      { timeframe_minutes := 5,
        current_candle := some ⟨⟨0, 10, 0, 0, 0⟩, 42, 42, 42, 42, 0⟩,
        completed_candles := [] } := by
  refine ⟨by norm_num, ?_⟩
  have h := (C6_update_from_tick
    { timeframe_minutes := 5, current_candle := none, completed_candles := [] }
    { timestamp := ⟨0, 10, 3, 0, 0⟩, ltp := 42, volume := none } (by norm_num)).1 rfl
  rw [h]
  rfl

theorem greeksLoop_attempts_le (resp : ℕ → GreekResp) (jitter : ℕ → ℚ) :
    ∀ fuel retry trace,
      (greeksLoop resp jitter retry fuel trace).2.2 ≤ retry + fuel := by
  intro fuel
  induction fuel with
  | zero => intro retry trace; simp [greeksLoop]
  | succ fuel ih =>
    intro retry trace
    rw [greeksLoop]
    cases hr : resp retry with
    | ok d => dsimp only; omega
    | err t => dsimp only; exact le_trans (ih (retry + 1) _) (by omega)
    | exc => dsimp only; exact le_trans (ih (retry + 1) _) (by omega)

theorem greeksLoop_all_fail (resp : ℕ → GreekResp) (jitter : ℕ → ℚ)
    (hfail : ∀ k d, resp k ≠ GreekResp.ok d) :
    ∀ fuel retry trace,
      (greeksLoop resp jitter retry fuel trace).1 = none ∧
      (greeksLoop resp jitter retry fuel trace).2.2 = retry + fuel := by
  intro fuel
  induction fuel with
  | zero => intro retry trace; simp [greeksLoop]
  | succ fuel ih =>
    intro retry trace
    rw [greeksLoop]
    cases hr : resp retry with
    | ok d => exact absurd hr (hfail retry d)
    | err t =>
      dsimp only
      refine ⟨(ih (retry + 1) _).1, ?_⟩
      rw [(ih (retry + 1) _).2]
      omega
    | exc =>
      dsimp only
      refine ⟨(ih (retry + 1) _).1, ?_⟩
      rw [(ih (retry + 1) _).2]
      omega

theorem greeksLoop_trace_mono (resp : ℕ → GreekResp) (jitter : ℕ → ℚ) :
    ∀ fuel retry trace x, x ∈ trace →
      x ∈ (greeksLoop resp jitter retry fuel trace).2.1 := by
  intro fuel
  induction fuel with
  | zero => intro retry trace x hx; simpa [greeksLoop] using hx
  | succ fuel ih =>
    intro retry trace x hx
    rw [greeksLoop]
    have hx1 : x ∈ (if 0 < retry then trace ++ [min ((2 : ℚ) ^ retry + jitter retry) 5]
        else trace) := by
      split
      · exact List.mem_append_left _ hx
      · exact hx
    cases hr : resp retry with
    | ok d => exact hx1
    | err t =>
      dsimp only
      refine ih (retry + 1) _ x ?_
      split
      · exact List.mem_append_left _ hx1
      · exact hx1
    | exc =>
      dsimp only
      exact ih (retry + 1) _ x hx1

theorem greeksLoop_backoff_mem (resp : ℕ → GreekResp) (jitter : ℕ → ℚ) :
    ∀ fuel retry trace k, 1 ≤ k → retry ≤ k →
      k < (greeksLoop resp jitter retry fuel trace).2.2 →
      min ((2 : ℚ) ^ k + jitter k) 5 ∈ (greeksLoop resp jitter retry fuel trace).2.1 := by
  intro fuel
  induction fuel with
  | zero =>
    intro retry trace k _ hk2 hk3
    simp only [greeksLoop] at hk3 ⊢
    omega
  | succ fuel ih =>
    intro retry trace k hk1 hk2 hk3
    rw [greeksLoop] at hk3 ⊢
    cases hr : resp retry with
    | ok d =>
      rw [hr] at hk3
      dsimp only at hk3 ⊢
      have hkr : k = retry := by omega
      subst hkr
      rw [if_pos (by omega)]
      exact List.mem_append_right _ (by simp)
    | err t =>
      rw [hr] at hk3
      dsimp only at hk3 ⊢
      by_cases hkr : k = retry
      · subst hkr
        apply greeksLoop_trace_mono
        have hmem : min ((2 : ℚ) ^ k + jitter k) 5 ∈
            (if 0 < k then trace ++ [min ((2 : ℚ) ^ k + jitter k) 5] else trace) := by
          rw [if_pos (by omega : 0 < k)]
          simp
        split
        · exact List.mem_append_left _ hmem
        · exact hmem
      · exact ih (retry + 1) _ k hk1 (by omega) hk3
    | exc =>
      rw [hr] at hk3
      dsimp only at hk3 ⊢
      by_cases hkr : k = retry
      · subst hkr
        apply greeksLoop_trace_mono
        rw [if_pos (by omega : 0 < k)]
        simp
      · exact ih (retry + 1) _ k hk1 (by omega) hk3

theorem greeksLoop_transient_sleep_mem (resp : ℕ → GreekResp) (jitter : ℕ → ℚ) :
    ∀ fuel retry trace k, retry ≤ k →
      k < (greeksLoop resp jitter retry fuel trace).2.2 →
      resp k = GreekResp.err true →
      min (5 * ((k : ℚ) + 1)) 30 ∈ (greeksLoop resp jitter retry fuel trace).2.1 := by
  intro fuel
  induction fuel with
  | zero =>
    intro retry trace k hk2 hk3 _
    simp only [greeksLoop] at hk3 ⊢
    omega
  | succ fuel ih =>
    intro retry trace k hk2 hk3 hkt
    rw [greeksLoop] at hk3 ⊢
    cases hr : resp retry with
    | ok d =>
      rw [hr] at hk3
      dsimp only at hk3
      have hkr : k = retry := by omega
      subst hkr
      rw [hkt] at hr
      exact absurd hr (by simp)
    | err t =>
      rw [hr] at hk3
      dsimp only at hk3 ⊢
      by_cases hkr : k = retry
      · subst hkr
        rw [hkt] at hr
        have ht : t = true := by injection hr with h; exact h.symm
        subst ht
        apply greeksLoop_trace_mono
        simp
      · exact ih (retry + 1) _ k (by omega) hk3 hkt
    | exc =>
      rw [hr] at hk3
      dsimp only at hk3 ⊢
      by_cases hkr : k = retry
      · subst hkr
        rw [hkt] at hr
        exact absurd hr (by simp)
      · exact ih (retry + 1) _ k (by omega) hk3 hkt

/-- C7: counterexample.  A NON-transient provider error IS retried within
the Greeks-fetch loop: with a budget of 3, a non-transient error on attempt 0
and a success on attempt 1, the loop makes a second attempt (2 attempts in
total) and returns the data, sleeping only the jittered exponential backoff
`min(2¹ + 0, 5) = 2` — the claim that non-transient errors are not retried
within this loop would have left it at one attempt with no result. -/
theorem C7_counterexample :
    get_option_greeks true
      (fun k => if k = 0 then GreekResp.err false else GreekResp.ok [1])
      (fun _ => 0) 3 = (some [1], [2], 2) := by
  rw [get_option_greeks]
  rw [if_pos rfl]
  rw [greeksLoop]
  norm_num
  rw [greeksLoop]
  norm_num

/-- C7 (amended): in the Greeks-fetch retry loop, attempts are bounded by the
caller-supplied budget; EVERY failed attempt — transient error, non-transient
error or exception alike — is followed by another attempt while budget
remains (with only failures the loop spends the whole budget and returns no
result); every attempt `k ≥ 1` is preceded by a sleep of
`min(2^k + jitter_k, 5)`; and a transient (rate-limit) error on attempt `k`
additionally puts a sleep of `min(5·(k+1), 30)` into the sleep sequence. -/
theorem C7_get_option_greeks (resp : ℕ → GreekResp) (jitter : ℕ → ℚ) (m : ℕ) :
    ((get_option_greeks true resp jitter m).2.2 ≤ m) ∧
    ((∀ k d, resp k ≠ GreekResp.ok d) →
      (get_option_greeks true resp jitter m).1 = none ∧
      (get_option_greeks true resp jitter m).2.2 = m) ∧
    (∀ k, 1 ≤ k → k < (get_option_greeks true resp jitter m).2.2 →
      min ((2 : ℚ) ^ k + jitter k) 5 ∈ (get_option_greeks true resp jitter m).2.1) ∧
    (∀ k, k < (get_option_greeks true resp jitter m).2.2 →
      resp k = GreekResp.err true →
      min (5 * ((k : ℚ) + 1)) 30 ∈ (get_option_greeks true resp jitter m).2.1) := by
  refine ⟨?_, ?_, ?_, ?_⟩
  · simpa [get_option_greeks] using greeksLoop_attempts_le resp jitter m 0 []
  · intro hfail
    have h := greeksLoop_all_fail resp jitter hfail m 0 []
    simpa [get_option_greeks] using h
  · intro k hk1 hk2
    simp only [get_option_greeks, if_pos] at hk2 ⊢
    exact greeksLoop_backoff_mem resp jitter m 0 [] k hk1 (by omega) hk2
  · intro k hk1 hkt
    simp only [get_option_greeks, if_pos] at hk1 ⊢
    exact greeksLoop_transient_sleep_mem resp jitter m 0 [] k (by omega) hk1 hkt

theorem C7_get_option_greeks_witness :
    (get_option_greeks true (fun _ => GreekResp.err false) (fun _ => 0) 2).1 = none ∧
    (get_option_greeks true (fun _ => GreekResp.err false) (fun _ => 0) 2).2.2 = 2 :=
  (C7_get_option_greeks (fun _ => GreekResp.err false) (fun _ => 0) 2).2.1
    (fun k d => by simp)

theorem check_live_tick_points (ma : ℕ) (tmin tmax : ℚ) (ls : ℕ) (s : Engine)
    (cached : Option (List OptionRow)) (price : ℚ) :
    (check_live_tick ma tmin tmax ls s cached price).2.L1 = s.L1 ∧
    (check_live_tick ma tmin tmax ls s cached price).2.H1 = s.H1 ∧
    (check_live_tick ma tmin tmax ls s cached price).2.A = s.A ∧
    (check_live_tick ma tmin tmax ls s cached price).2.B = s.B ∧
    (check_live_tick ma tmin tmax ls s cached price).2.C = s.C ∧
    (check_live_tick ma tmin tmax ls s cached price).2.D = s.D := by
  rcases hC : s.C with _ | ⟨cV, cI⟩
  · simp [check_live_tick, hC]
  · rcases hD : s.D with _ | ⟨dV, dI⟩
    · simp [check_live_tick, hC, hD]
    · simp only [check_live_tick, hC, hD]
      repeat' split
      all_goals simp [hC, hD]

theorem check_live_tick_no_signal_of_le (ma : ℕ) (tmin tmax : ℚ) (ls : ℕ) (s : Engine)
    (cached : Option (List OptionRow)) (price d : ℚ) (dI : ℕ)
    (hD : s.D = some (d, dI)) (hle : price ≤ d) :
    check_live_tick ma tmin tmax ls s cached price = (none, s) := by
  rcases hC : s.C with _ | ⟨cV, cI⟩
  · simp [check_live_tick, hC]
  · simp only [check_live_tick, hC, hD]
    rw [if_neg (not_lt.mpr hle)]

theorem check_live_tick_capped (ma : ℕ) (tmin tmax : ℚ) (ls : ℕ) (s : Engine)
    (cached : Option (List OptionRow)) (price : ℚ)
    (hcap : ma ≤ s.order_counter) :
    (check_live_tick ma tmin tmax ls s cached price).1 = none := by
  rcases hC : s.C with _ | ⟨cV, cI⟩
  · simp [check_live_tick, hC]
  · rcases hD : s.D with _ | ⟨dV, dI⟩
    · simp [check_live_tick, hC, hD]
    · simp only [check_live_tick, hC, hD]
      repeat' split
      all_goals first
      | rfl
      | exact absurd hcap (by assumption)

theorem check_live_tick_pending_kept (ma : ℕ) (tmin tmax : ℚ) (ls : ℕ) (s : Engine)
    (cached : Option (List OptionRow)) (price : ℚ) (p : PendingSetup)
    (hp : s.pending_setup = some p) :
    (check_live_tick ma tmin tmax ls s cached price).2.pending_setup = some p := by
  rcases hC : s.C with _ | ⟨cV, cI⟩
  · simp [check_live_tick, hC, hp]
  · rcases hD : s.D with _ | ⟨dV, dI⟩
    · simp [check_live_tick, hC, hD, hp]
    · simp only [check_live_tick, hC, hD, hp]
      repeat' split
      all_goals simp [hp]

/-- Evaluation helper: the live check fires when C and D are set, the price
strictly exceeds D, the order counter is below the cap, a pending setup
exists, and the single cached contract's first lot multiple already exceeds
the band maximum (fallback selection). -/
theorem check_live_tick_fires (ma : ℕ) (tmin tmax : ℚ) (ls : ℕ) (s : Engine)
    (r : OptionRow) (price cV d : ℚ) (cI dI : ℕ) (p : PendingSetup)
    (hC : s.C = some (cV, cI)) (hD : s.D = some (d, dI))
    (hp : s.pending_setup = some p)
    (hprice : d < price) (hcap : s.order_counter < ma)
    (hmax : 0 ≤ tmax) (hbreak : tmax < rowRisk price r * ((1 * ls : ℕ) : ℚ)) :
    check_live_tick ma tmin tmax ls s (some [r]) price =
      (some ⟨p.entry_price, p.stop_loss, p.target, postCalcOption price r, ls,
        rowRisk price r * (ls : ℚ)⟩,
       { s with signal_counter := s.signal_counter + 1 }) := by
  simp only [check_live_tick, hC, hD, hp]
  rw [if_pos hprice, if_neg (not_le.mpr hcap)]
  simp [select_singleton_break r price tmin tmax ls hmax hbreak]

theorem reset_points_pending_none (pts : List PointName) :
    ∀ s : Engine, s.pending_setup = none → (reset_points s pts).pending_setup = none := by
  induction pts with
  | nil => intro s h; exact h
  | cons pt pts ih =>
    intro s h
    cases pt <;> simp only [reset_points] <;> exact ih _ (by simp [h])

/-- C1: counterexample.  The live breakout check does NOT reset the structure
points after a signal fires: in a state with all six points set, a pending
setup, an order counter of 0 and a usable cached contract, a tick at 200 > D
= 199 returns a signal while D (and the pending setup) remain set — the
batch path would have cleared all six points and re-seeded L1. -/
theorem C1_counterexample :
    let s : Engine :=
      { L1 := some (180, 1), H1 := some (205, 2), A := some (190, 3),
        B := some (193, 4), C := some (195, 5), D := some (199, 6),
        pending_setup := some ⟨3981/20, 3899/20, 829/4, none, none, none, none, none, none⟩,
        order_counter := 0, signal_counter := 0 }
    (check_live_tick 1 800 900 75 s (some [⟨0, 100, 0, 0, 0⟩]) 200).1.isSome = true ∧
    (check_live_tick 1 800 900 75 s (some [⟨0, 100, 0, 0, 0⟩]) 200).2.D = some (199, 6) ∧
    (check_live_tick 1 800 900 75 s (some [⟨0, 100, 0, 0, 0⟩]) 200).2.pending_setup ≠
      none := by
  intro s
  have hrisk : rowRisk 200 ⟨0, 100, 0, 0, 0⟩ = 100 := by
    simp only [rowRisk, postCalcOption, OptionData.calculate_stop_loss, OptionData.ofRow]
    rw [show |(200 : ℚ) - 200 * (995/1000)| = 1 by rw [abs_of_nonneg] <;> norm_num]
    norm_num
  have h := check_live_tick_fires 1 800 900 75 s ⟨0, 100, 0, 0, 0⟩ 200 195 199 5 6
    ⟨3981/20, 3899/20, 829/4, none, none, none, none, none, none⟩
    rfl rfl rfl (by norm_num) (by norm_num) (by norm_num)
    (by rw [hrisk]; norm_num)
  rw [h]
  exact ⟨rfl, rfl, by simp⟩

/-- C1 (amended): both evaluation contexts compare strictly against D — the
batch pass fires exactly when the candle's high strictly exceeds D and the
live check emits nothing when the price does not strictly exceed D — and
after a batch signal all six points are reset with L1 re-seeded from the
triggering candle's low; the live check, however, never changes any
structure point on any path. -/
theorem C1_breakout_semantics :
    (∀ (data : List Candle) (i : ℕ) (s : Engine) (rows : List SignalRow)
        (p : PendingSetup) (d : ℚ) (dI : ℕ),
      s.pending_setup = some p → s.D = some (d, dI) →
      (highAt data i ≤ d → breakoutStep data i (s, rows) = (s, rows)) ∧
      (d < highAt data i →
        breakoutStep data i (s, rows) =
          ({ Engine.fresh with L1 := some (lowAt data i, i), order_counter := s.order_counter, signal_counter := s.signal_counter },
           rows ++ [⟨i, p.entry_price, p.stop_loss, p.target⟩]))) ∧
    (∀ (ma : ℕ) (tmin tmax : ℚ) (ls : ℕ) (s : Engine)
        (cached : Option (List OptionRow)) (price : ℚ),
      ((check_live_tick ma tmin tmax ls s cached price).2.L1 = s.L1 ∧
       (check_live_tick ma tmin tmax ls s cached price).2.H1 = s.H1 ∧
       (check_live_tick ma tmin tmax ls s cached price).2.A = s.A ∧
       (check_live_tick ma tmin tmax ls s cached price).2.B = s.B ∧
       (check_live_tick ma tmin tmax ls s cached price).2.C = s.C ∧
       (check_live_tick ma tmin tmax ls s cached price).2.D = s.D) ∧
      (∀ (d : ℚ) (dI : ℕ), s.D = some (d, dI) → price ≤ d →
        check_live_tick ma tmin tmax ls s cached price = (none, s))) := by
  constructor
  · intro data i s rows p d dI hp hD
    constructor
    · intro hle
      simp only [breakoutStep, hp, hD]
      rw [if_neg (not_lt.mpr hle)]
    · intro hlt
      simp only [breakoutStep, hp, hD]
      rw [if_pos hlt]
      rfl
  · intro ma tmin tmax ls s cached price
    exact ⟨check_live_tick_points ma tmin tmax ls s cached price,
      fun d dI hD hle => check_live_tick_no_signal_of_le ma tmin tmax ls s cached
        price d dI hD hle⟩

theorem C1_breakout_semantics_witness :
    breakoutStep [⟨10, 20⟩, ⟨11, 30⟩] 1
      ({ L1 := some (10, 0), H1 := some (20, 0), A := some (12, 0), B := some (13, 0),
         C := some (14, 0), D := some (25, 0),
         pending_setup := some ⟨1, 2, 3, none, none, none, none, none, none⟩,
         order_counter := 0, signal_counter := 0 }, []) =
      ({ Engine.fresh with L1 := some (11, 1) }, [⟨1, 1, 2, 3⟩]) := by
  have h := ((C1_breakout_semantics).1 [⟨10, 20⟩, ⟨11, 30⟩] 1
    { L1 := some (10, 0), H1 := some (20, 0), A := some (12, 0), B := some (13, 0),
      C := some (14, 0), D := some (25, 0),
      pending_setup := some ⟨1, 2, 3, none, none, none, none, none, none⟩,
      order_counter := 0, signal_counter := 0 } []
    ⟨1, 2, 3, none, none, none, none, none, none⟩ 25 0 rfl rfl).2 (by decide)
  exact h

/-- C3: counterexample.  Two successive live ticks above D each return a
signal while `MAX_SIGNAL_ATTEMPTS = 1`: the order counter only advances on
successful order placement, so the live check fires repeatedly within one
structure lifetime, and the pending setup survives the first signal instead
of being destroyed. -/
theorem C3_counterexample :
    let s : Engine :=
      { L1 := some (280, 1), H1 := some (290, 2), A := some (285, 3),
        B := some (287, 4), C := some (295, 5), D := some (299, 6),
        pending_setup := some ⟨5981/20, 5899/20, 1229/4, none, none, none, none, none, none⟩,
        order_counter := 0, signal_counter := 0 }
    (check_live_tick 1 800 900 75 s (some [⟨1, 50, 0, 0, 0⟩]) 300).1.isSome = true ∧
    (check_live_tick 1 800 900 75 s (some [⟨1, 50, 0, 0, 0⟩]) 300).2.pending_setup.isSome
      = true ∧
    (check_live_tick 1 800 900 75
      (check_live_tick 1 800 900 75 s (some [⟨1, 50, 0, 0, 0⟩]) 300).2
      (some [⟨1, 50, 0, 0, 0⟩]) 300).1.isSome = true := by
  intro s
  have hrisk : rowRisk 300 ⟨1, 50, 0, 0, 0⟩ = 75 := by
    simp only [rowRisk, postCalcOption, OptionData.calculate_stop_loss, OptionData.ofRow]
    rw [show |(300 : ℚ) - 300 * (995/1000)| = 3/2 by rw [abs_of_nonneg] <;> norm_num]
    norm_num
  have h1 := check_live_tick_fires 1 800 900 75 s ⟨1, 50, 0, 0, 0⟩ 300 295 299 5 6
    ⟨5981/20, 5899/20, 1229/4, none, none, none, none, none, none⟩
    rfl rfl rfl (by norm_num) (by norm_num) (by norm_num)
    (by rw [hrisk]; norm_num)
  refine ⟨?_, ?_, ?_⟩
  · rw [h1]
    rfl
  · rw [h1]
    rfl
  · rw [h1]
    have h2 := check_live_tick_fires 1 800 900 75
      { s with signal_counter := s.signal_counter + 1 } ⟨1, 50, 0, 0, 0⟩ 300 295 299 5 6
      ⟨5981/20, 5899/20, 1229/4, none, none, none, none, none, none⟩
      rfl rfl rfl (show (299 : ℚ) < 300 by norm_num) (show (0 : ℕ) < 1 by norm_num)
      (by norm_num) (by rw [hrisk]; norm_num)
    rw [h2]
    rfl

/-- C3 (amended): the engine's single optional `pending_setup` field holds at
most one setup by representation; any reset that includes D — an upstream
invalidation or the batch breakout — destroys the pending setup; the live
check emits no signal once the order counter has reached the cap; but a live
signal does NOT destroy the pending setup, which survives every live path. -/
theorem C3_pending_lifecycle :
    (∀ (s : Engine) (pts : List PointName), PointName.D ∈ pts →
      (reset_points s pts).pending_setup = none) ∧
    (∀ (data : List Candle) (i : ℕ) (s : Engine) (rows : List SignalRow)
        (p : PendingSetup) (d : ℚ) (dI : ℕ),
      s.pending_setup = some p → s.D = some (d, dI) → d < highAt data i →
      (breakoutStep data i (s, rows)).1.pending_setup = none) ∧
    (∀ (ma : ℕ) (tmin tmax : ℚ) (ls : ℕ) (s : Engine)
        (cached : Option (List OptionRow)) (price : ℚ),
      ma ≤ s.order_counter →
      (check_live_tick ma tmin tmax ls s cached price).1 = none) ∧
    (∀ (ma : ℕ) (tmin tmax : ℚ) (ls : ℕ) (s : Engine)
        (cached : Option (List OptionRow)) (price : ℚ) (p : PendingSetup),
      s.pending_setup = some p →
      (check_live_tick ma tmin tmax ls s cached price).2.pending_setup = some p) := by
  refine ⟨?_, ?_, ?_, ?_⟩
  · intro s pts
    induction pts generalizing s with
    | nil => intro h; simp at h
    | cons pt pts ih =>
      intro hmem
      rcases List.mem_cons.mp hmem with heq | hmem'
      · rw [← heq]
        simp only [reset_points]
        exact reset_points_pending_none pts _ rfl
      · cases pt <;> simp only [reset_points] <;>
          first
          | exact ih _ hmem'
          | exact reset_points_pending_none pts _ rfl
  · intro data i s rows p d dI hp hD hlt
    simp only [breakoutStep, hp, hD]
    rw [if_pos hlt]
    rfl
  · intro ma tmin tmax ls s cached price hcap
    exact check_live_tick_capped ma tmin tmax ls s cached price hcap
  · intro ma tmin tmax ls s cached price p hp
    exact check_live_tick_pending_kept ma tmin tmax ls s cached price p hp

theorem C3_pending_lifecycle_witness :
    (reset_points Engine.fresh [PointName.D]).pending_setup = none ∧
    (check_live_tick 1 800 900 75
      { Engine.fresh with order_counter := 1 } none 500).1 = none := by
  refine ⟨(C3_pending_lifecycle).1 Engine.fresh [PointName.D] (by simp), ?_⟩
  exact (C3_pending_lifecycle).2.2.1 1 800 900 75
    { Engine.fresh with order_counter := 1 } none 500 (by norm_num)

end AlgoTrading
